import Mathlib

/-!
Shallow embedding of `postgres.go` from the `touno-io/goasa` repository
(package `daas`): a client-side Postgres access layer with a connection
manager, transaction scopes, a string-keyed row decoder with typed
accessors, a diagnostic query logger, and a LISTEN/NOTIFY channel wrapper.

Modelling conventions:
  - Go strings and `[]uint8` byte slices are both byte/character sequences;
    they are modelled as Lean `String` / `List Char` (the values appearing
    here are ASCII, where the two coincide).
  - Machine integers are modelled as `Nat` / `Int` with explicit bounds
    where the Go fixed width matters (`strconv` cutoffs use `2 ^ 64`).
  - Fallible Go calls return `Option` / `Except`; a Go runtime panic is the
    `GoResult.panicked` constructor.
  - External collaborators (the `database/sql` driver, the network) are
    parameters: a cursor is the list of raw rows the driver would hand to
    `rows.Scan`, a transaction handle carries the errors the driver would
    return from commit/rollback.
  - IEEE-754 `float64` values are carried abstractly as their bit fields
    (`GoFloat`); the Go float formatting (`fmt` shortest round-trip `%v`) and
    `strconv.ParseFloat` are a parameter (`FloatModel`), since floating
    point is outside this embedding.
-/

/-- Single-quote character (ASCII 39), used by the Go code both in the DSN
(the quoted application name in the DSN) and by the query logger when quoting arguments. -/
def sqc : Char := Char.ofNat 39

/-- Single-quote as a one-character string. -/
def sqs : String := String.mk [sqc]

/-- Does `sub` occur as a contiguous sublist of `s`?  Models the scan done by
Go `strings.Contains`. -/
def hasSub (sub : List Char) : List Char → Bool
  | [] => sub.isEmpty
  | c :: rest => sub.isPrefixOf (c :: rest) || hasSub sub rest

/-- Models Go `strings.Contains s sub`. -/
def goContains (s sub : String) : Bool := hasSub sub.data s.data

/-- The environment-derived connection configuration read by `getDSN` and
`Connect` (`DAAS_HOST`, `DAAS_PORT`, `DAAS_USER`, `DAAS_PASS`,
`DAAS_DBNAME`). -/
structure EnvConfig where
  host : String
  port : String
  user : String
  password : String
  dbname : String
deriving DecidableEq

/-- The `sslmode` value chosen inside `getDSN` (postgres.go lines 29-32):
`"disable"` when the configured host string contains the substring
`"localhost"`, `"require"` otherwise. -/
def sslmodeFor (host : String) : String :=
  if goContains host "localhost" then "disable" else "require"

/-- Models `getDSN` (postgres.go lines 28-36): the connection descriptor
assembled by `fmt.Sprintf`. -/
def getDSN (env : EnvConfig) (appName : String) : String :=
  "host=" ++ env.host ++ " port=" ++ env.port ++ " user=" ++ env.user ++
    " password=" ++ env.password ++ " dbname=" ++ env.dbname ++
    " sslmode=" ++ sslmodeFor env.host ++
    " application_name=" ++ sqs ++ appName ++ sqs

/-- An IEEE-754 binary64 value, carried abstractly as its bit fields.  The
embedding never computes with floats; see `FloatModel`. -/
structure GoFloat where
  signBit : Bool
  expBits : Nat
  fracBits : Nat
deriving DecidableEq

/-- Parse/format error kinds of Go `strconv` (`NumError.Err`). -/
inductive NumErr where
  | invalid
  | range
deriving DecidableEq

/-- The two float operations the Go code uses, left abstract: `fmtG` models
`fmt.Sprint` on a `float64` (shortest round-trip `%v` formatting) and
`parse` models `strconv.ParseFloat(s, 64)` (which returns the parsed value,
`0` on a syntax error, or an infinity on a range error, together with the
error).  Floating point is outside the embedding, so every theorem touching
floats is stated for an arbitrary `FloatModel`. -/
structure FloatModel where
  fmtG : GoFloat → String
  parse : String → GoFloat × Option NumErr

/-- A Go `time.Time` in broken-down civil form: the wall-clock fields
together with the zone offset in minutes (the Go RFC 3339 rendering only ever
prints whole minutes of offset).  `fetchRow` formats such a value and
`PGRow.ToTime` re-parses it, so the civil form is exactly the information
the repository exchanges. -/
structure GoTime where
  year : Int
  month : Nat
  day : Nat
  hour : Nat
  minute : Nat
  second : Nat
  nsec : Nat
  offsetMin : Int
deriving DecidableEq

/-- The zero `time.Time` (January 1, year 1, 00:00:00 UTC), which Go
`time.Parse` returns alongside an error. -/
def zeroTime : GoTime := ⟨1, 1, 1, 0, 0, 0, 0, 0⟩

/-- Decimal rendering of `n` zero-padded on the left to width `w`. -/
def padNat (w : Nat) (n : Nat) : String :=
  String.mk (List.replicate (w - (toString n).length) (Char.ofNat 48)) ++ toString n

/-- Models Go `time.appendInt`: decimal digits of `|x|` zero-padded to width
`w`, preceded by a sign for negative `x`. -/
def goAppendInt (w : Nat) (x : Int) : String :=
  (if x < 0 then "-" else "") ++ padNat w x.natAbs

/-- Drop trailing zero characters (code point 48). -/
def stripTrailingZeros (l : List Char) : List Char :=
  (l.reverse.dropWhile (· = Char.ofNat 48)).reverse

/-- Models Go `time.formatNano` for the `.999999999` layout fragment: the
nanoseconds as nine zero-padded digits with trailing zeros removed, preceded
by a dot; nothing at all when every digit is removed (nsec = 0). -/
def formatFrac (nsec : Nat) : String :=
  let ds := stripTrailingZeros (padNat 9 nsec).data
  if ds.isEmpty then "" else "." ++ String.mk ds

/-- Models the `Z07:00` layout fragment: `"Z"` for UTC, otherwise a signed
`hh:mm` offset. -/
def formatZone (offsetMin : Int) : String :=
  if offsetMin = 0 then "Z"
  else (if offsetMin < 0 then "-" else "+") ++
    padNat 2 (offsetMin.natAbs / 60) ++ ":" ++ padNat 2 (offsetMin.natAbs % 60)

/-- Models `t.Format(time.RFC3339Nano)` as used by `fetchRow` (postgres.go
line 315): layout `2006-01-02T15:04:05.999999999Z07:00`. -/
def formatRFC3339Nano (t : GoTime) : String :=
  goAppendInt 4 t.year ++ "-" ++ padNat 2 t.month ++ "-" ++ padNat 2 t.day ++
    "T" ++ padNat 2 t.hour ++ ":" ++ padNat 2 t.minute ++ ":" ++ padNat 2 t.second ++
    formatFrac t.nsec ++ formatZone t.offsetMin

/-- A driver-native column value as produced by `rows.Scan` into an
`interface` slot, discriminated exactly as the `reflect.TypeOf` switch in
`fetchRow` (postgres.go lines 298-319) does: `int64`, `float64`, `string`,
`[]uint8` (carried as its direct text decoding, which is what
`string(val.([]uint8))` produces), `bool`, `time.Time`, a `nil` interface
(null column), or any other runtime type (carrying the name of that type). -/
inductive GoValue where
  | vint64 (i : Int)
  | vfloat64 (f : GoFloat)
  | vstring (s : String)
  | vbytes (s : String)
  | vbool (b : Bool)
  | vtime (t : GoTime)
  | vnull
  | vother (typeName : String)
deriving DecidableEq

/-- Is this value of a runtime type the `fetchRow` switch does not
recognize? -/
def GoValue.isUnrecognized : GoValue → Bool
  | .vother _ => true
  | _ => false

/-- One arm of the `fetchRow` type switch: the string stored for a value,
together with the `Errorf` log lines it emits (only the unrecognized-type
default arm logs). -/
def renderValue (FM : FloatModel) : GoValue → String × List String
  | .vint64 i => (toString i, [])
  | .vfloat64 f => (FM.fmtG f, [])
  | .vstring s => (s, [])
  | .vbytes s => (s, [])
  | .vbool b => (cond b "true" "false", [])
  | .vtime t => (formatRFC3339Nano t, [])
  | .vnull => ("", [])
  | .vother ty => ("", ["Reflect TypeOf: " ++ ty ++ " "])

/-- `PGRow` (postgres.go line 43): a `map[string]string`, modelled as an
association list with Go map get/set semantics. -/
def PGRow := List (String × String)
deriving DecidableEq

/-- Go map read `m[k]` without the ok flag: the stored value, or the zero
string when the key is absent. -/
def rowGet? : PGRow → String → Option String
  | [], _ => none
  | (k2, v) :: rest, k => if k2 = k then some v else rowGet? rest k

/-- Go map read `m[k]`: defaults to `""` for an absent key. -/
def rowGetD (m : PGRow) (k : String) : String := (rowGet? m k).getD ""

/-- Go map write `m[k] = v`: overwrite the existing binding or add one. -/
def rowSet : PGRow → String → String → PGRow
  | [], k, v => [(k, v)]
  | (k2, v2) :: rest, k, v =>
    if k2 = k then (k2, v) :: rest else (k2, v2) :: rowSet rest k v

/-- The decode loop of `fetchRow` (postgres.go lines 298-320): each scanned
column value is rendered by the type switch and stored in the result map
under its column name; `Errorf` output is accumulated. -/
def decodeLoop (FM : FloatModel) : List (String × GoValue) → PGRow → List String → PGRow × List String
  | [], m, logs => (m, logs)
  | (nm, v) :: rest, m, logs =>
    decodeLoop FM rest (rowSet m nm (renderValue FM v).1) (logs ++ (renderValue FM v).2)

/-- The map built by the decode loop of `fetchRow` for one raw row. -/
def decodeRow (FM : FloatModel) (cols : List (String × GoValue)) : PGRow :=
  (decodeLoop FM cols [] []).1

/-- The `Errorf` log lines emitted while decoding one raw row. -/
def decodeLogs (FM : FloatModel) (cols : List (String × GoValue)) : List String :=
  (decodeLoop FM cols [] []).2

/-- What the driver hands `fetchRow` for the current row of the cursor:
`rows.Columns()` may fail, `rows.Scan` may fail (with `sql.ErrNoRows`
singled out by the code), or scanning succeeds with one driver-native value
per column. -/
inductive RawRow where
  | colsErr (e : String)
  | scanFail (isNoRows : Bool) (e : String)
  | vals (cols : List (String × GoValue))
deriving DecidableEq

/-- Models `fetchRow` (postgres.go lines 279-322).  Result: the returned
`(PGRow, error)` pair (a `nil` map is `none`) together with the `Errorf`
log lines.  A `Columns` failure returns a nil map and a wrapped error; a
scan failure equal to `sql.ErrNoRows` returns the (empty) map built so far
with a wrapped error, any other scan failure a nil map with a wrapped
error; otherwise the type switch decodes every column. -/
def fetchRow (FM : FloatModel) : RawRow → (Option PGRow × Option String) × List String
  | .colsErr e => ((none, some ("FetchRow::Columns::" ++ e)), [])
  | .scanFail true e => ((some [], some ("FetchRow::ErrNoRows: " ++ e)), [])
  | .scanFail false e => ((none, some ("FetchRow::Scan: " ++ e)), [])
  | .vals cols => ((some (decodeRow FM cols), none), decodeLogs FM cols)

/-- The accumulator loop of `PGTx.FetchAll` (postgres.go lines 245-256):
decoded rows are appended in cursor order; the moment one `FetchRow` call
reports an error the function returns `PGRecord{}, nil` — an empty record
set and a nil error. -/
def fetchAllAux (FM : FloatModel) : List RawRow → List PGRow → List PGRow × Option String
  | [], acc => (acc, none)
  | r :: rest, acc =>
    match fetchRow FM r with
    | ((_, some _), _) => ([], none)
    | ((d, none), _) => fetchAllAux FM rest (acc ++ [d.getD []])

/-- Models `PGTx.FetchAll`: the cursor is the list of raw rows the driver
would yield across successive `rows.Next()` calls. -/
def FetchAll (FM : FloatModel) (rows : List RawRow) : List PGRow × Option String :=
  fetchAllAux FM rows []

/-- The accumulator loop of `PGTx.FetchOneColumn` (postgres.go lines
257-268): same shape as `fetchAllAux` but appending one projected column
value per row (Go map read, `""` when the column is absent). -/
def fetchOneColumnAux (FM : FloatModel) (columnName : String) : List RawRow → List String → List String × Option String
  | [], acc => (acc, none)
  | r :: rest, acc =>
    match fetchRow FM r with
    | ((_, some _), _) => ([], none)
    | ((d, none), _) => fetchOneColumnAux FM columnName rest (acc ++ [rowGetD (d.getD []) columnName])

/-- Models `PGTx.FetchOneColumn` (postgres.go lines 257-268). -/
def FetchOneColumn (FM : FloatModel) (rows : List RawRow) (columnName : String) : List String × Option String :=
  fetchOneColumnAux FM columnName rows []

/-- The outcome of running a piece of Go code that may panic at runtime
(nil-pointer dereference, double channel close). -/
inductive GoResult (α : Type) where
  | ok (val : α)
  | panicked (msg : String)
deriving DecidableEq

/-- Is this outcome a runtime panic? -/
def GoResult.isPanicked {α : Type} : GoResult α → Bool
  | .ok _ => false
  | .panicked _ => true

/-- The Go runtime message for dereferencing a nil pointer. -/
def nilDeref : String := "runtime error: invalid memory address or nil pointer dereference"

/-- The underlying `*sql.Tx` handle, reduced to the observable behaviour the
repository uses: the error (if any) its `Commit` and `Rollback` would
return. -/
structure TxObj where
  commitErr : Option String
  rollbackErr : Option String
deriving DecidableEq

/-- `PGTx` (postgres.go lines 46-50): the `Closed` flag plus the wrapped
transaction handle; a nil `*sql.Tx` (as stored by a failed `Begin`) is
`none`. -/
structure PGTx where
  Closed : Bool
  tx : Option TxObj
deriving DecidableEq

/-- Models `PGClient.Begin` (postgres.go lines 181-187): the `BeginTx` outcome
is the parameter; the returned scope always exists, wraps whatever handle
`BeginTx` produced (nil on failure), leaves `Closed` at its zero value
`false`, and passes the error through. -/
def Begin (beginRes : Except String TxObj) : PGTx × Option String :=
  match beginRes with
  | .error e => ({ Closed := false, tx := none }, some e)
  | .ok t => ({ Closed := false, tx := some t }, none)

/-- Models `PGTx.Commit` (postgres.go lines 189-192): the `Closed` flag is
set first, unconditionally; then `stx.tx.Commit()` runs — panicking if the
wrapped handle is nil, otherwise returning the driver error. -/
def PGTx.Commit (stx : PGTx) : PGTx × GoResult (Option String) :=
  let stx2 : PGTx := { stx with Closed := true }
  match stx2.tx with
  | none => (stx2, .panicked nilDeref)
  | some t => (stx2, .ok t.commitErr)

/-- Models `PGTx.Rollback` (postgres.go lines 194-197), same shape as
`Commit`. -/
def PGTx.Rollback (stx : PGTx) : PGTx × GoResult (Option String) :=
  let stx2 : PGTx := { stx with Closed := true }
  match stx2.tx with
  | none => (stx2, .panicked nilDeref)
  | some t => (stx2, .ok t.rollbackErr)

/-- The query text and positional arguments handed to the parameterized
entry point of the driver (`pgstx.QueryContext` / `ExecContext`).  Argument
values are carried as strings, matching the `arg.(string)` assertion the
diagnostic logger performs. -/
structure DriverCall where
  query : String
  args : List String
deriving DecidableEq

/-- Replace every occurrence of `pat` in the subject, scanning left to
right, non-overlapping — the effect of Go
`regexp.MustCompile("\\$N").ReplaceAllString` for the literal pattern
`$N` (postgres.go lines 355-356).  An empty `pat` never matches here; the
patterns used are always the nonempty `$N`.  Recursion is by explicit fuel
so the function reduces definitionally; a match consumes `pat.length ≥ 1`
subject characters while spending one unit of fuel, so fuel equal to the
length of the subject (as `replaceAllL` supplies) is never exhausted. -/
def replaceFuel (pat rep : List Char) : Nat → List Char → List Char
  | _, [] => []
  | 0, s => s
  | fuel + 1, c :: rest =>
    if pat ≠ [] ∧ pat.isPrefixOf (c :: rest) then
      rep ++ replaceFuel pat rep fuel (List.drop pat.length (c :: rest))
    else
      c :: replaceFuel pat rep fuel rest

/-- Leftmost, non-overlapping replacement of every occurrence of `pat`. -/
def replaceAllL (pat rep s : List Char) : List Char :=
  replaceFuel pat rep s.length s

/-- String version of `replaceAllL`. -/
def goReplaceAll (s pat rep : String) : String :=
  String.mk (replaceAllL pat.data rep.data s.data)

/-- The argument as the logger renders it: wrapped in single quotes. -/
def quoteArg (a : String) : String := sqs ++ a ++ sqs

/-- The substitution loop of `sqlQuery` (postgres.go lines 354-357):
sequentially, for `i = 0, 1, …`, every occurrence of the literal text
`$(i+1)` in the current query text is replaced by the `i`-th argument
wrapped in single quotes. -/
def substArgsFrom : Nat → List String → String → String
  | _, [], q => q
  | i, a :: rest, q =>
    substArgsFrom (i + 1) rest (goReplaceAll q ("$" ++ toString (i + 1)) (quoteArg a))

/-- The fully-substituted query text `sqlQuery` builds for display.  (The
subsequent per-line printing — line-ending normalization, leading-indent
trimming, tab expansion, elapsed time — only re-formats this text for the
log and is not modelled further.) -/
def substArgs (q : String) (args : List String) : String := substArgsFrom 0 args q

/-- Models `sctxQuery` (postgres.go lines 324-336): the driver is invoked
through its parameterized path with the original query text and argument
list; when `envDebug` is set, `sqlQuery` additionally renders the
substituted text to the diagnostic log (deferred, display only). -/
def sctxQuery (envDebug : Bool) (query : String) (args : List String) : DriverCall × Option String :=
  (⟨query, args⟩, if envDebug then some (substArgs query args) else none)

/-- Models `sctxExecute` (postgres.go lines 338-351), identical to
`sctxQuery` for what this embedding observes. -/
def sctxExecute (envDebug : Bool) (query : String) (args : List String) : DriverCall × Option String :=
  (⟨query, args⟩, if envDebug then some (substArgs query args) else none)

/-- The body shared by `PGTx.QueryOne` and `PGTx.QueryOnePrint` (postgres.go
lines 199-223) once the driver has answered: a driver error is wrapped with
the `QueryOne::` tag; an empty cursor (`!rows.Next()`) yields the
distinguished `empty record` error; otherwise the first row is decoded by
`fetchRow`. -/
def queryOneCore (FM : FloatModel) : Except String (List RawRow) → (Option PGRow × Option String) × List String
  | .error e => ((none, some ("QueryOne::" ++ e)), [])
  | .ok [] => ((none, some "empty record"), [])
  | .ok (r :: _) => fetchRow FM r

/-- `QueryOne` / `QueryOnePrint` with the debug flag explicit: the wrapped
transaction is dereferenced (panicking when `Begin` failed and left it nil),
the driver — a parameter mapping the parameterized call to its response — is
invoked on exactly the call `sctxQuery` passes through, and the core runs.
The second component is the diagnostic log text (present iff debugging). -/
def queryOneWith (FM : FloatModel) (envDebug : Bool) (stx : PGTx)
    (driver : DriverCall → Except String (List RawRow)) (query : String) (args : List String) :
    GoResult ((Option PGRow × Option String) × Option String) :=
  match stx.tx with
  | none => .panicked nilDeref
  | some _ =>
    .ok ((queryOneCore FM (driver (sctxQuery envDebug query args).1)).1,
      (sctxQuery envDebug query args).2)

/-- Models `PGTx.QueryOne` (postgres.go lines 199-210). -/
def PGTx.QueryOne (stx : PGTx) (FM : FloatModel)
    (driver : DriverCall → Except String (List RawRow)) (query : String) (args : List String) :
    GoResult ((Option PGRow × Option String) × Option String) :=
  queryOneWith FM false stx driver query args

/-- Models `PGTx.QueryOnePrint` (postgres.go lines 212-223). -/
def PGTx.QueryOnePrint (stx : PGTx) (FM : FloatModel)
    (driver : DriverCall → Except String (List RawRow)) (query : String) (args : List String) :
    GoResult ((Option PGRow × Option String) × Option String) :=
  queryOneWith FM true stx driver query args

/-- `PGNotify` (postgres.go lines 52-55) reduced to its close-relevant
state: whether the buffered `fail` signal channel has been closed, and
whether the `pq.Listener` has been closed. -/
structure PGNotify where
  failClosed : Bool
  lnClosed : Bool
deriving DecidableEq

/-- Models `PGClient.CreateChannel` (postgres.go lines 60-76): allocates a
fresh open signal channel and listener, blocks on the first connection
event, and returns the channel together with that first-attempt error (nil
unless the first attempt failed). -/
def CreateChannel (firstEventErr : Option String) : PGNotify × Option String :=
  ({ failClosed := false, lnClosed := false }, firstEventErr)

/-- Models `PGNotify.Close` (postgres.go lines 102-105): `close(pg.fail)`
panics if the signal channel is already closed (Go double-close); otherwise
the channel is marked closed and `pg.ln.Close()` runs, returning an error
when the listener had already been closed (as `pq` does) and closing it
otherwise. -/
def PGNotify.Close (pg : PGNotify) : GoResult (PGNotify × Option String) :=
  if pg.failClosed then .panicked "close of closed channel"
  else if pg.lnClosed then .ok ({ pg with failClosed := true }, some "pq: Listener has been closed")
  else .ok ({ failClosed := true, lnClosed := true }, none)

/-- ASCII upper-to-lower case fold, as the Go `strconv` helper `lower`
(bitwise or with the space character) behaves on letters. -/
def lowerC (c : Char) : Char :=
  if 65 ≤ c.toNat ∧ c.toNat ≤ 90 then Char.ofNat (c.toNat + 32) else c

/-- The digit value a character contributes in the loop of Go
`strconv.ParseUint`: `0-9`, then `a-z` / `A-Z` as 10-35 (the base bound is checked by the
caller). -/
def digitVal (c : Char) : Option Nat :=
  if 48 ≤ c.toNat ∧ c.toNat ≤ 57 then some (c.toNat - 48)
  else if 97 ≤ (lowerC c).toNat ∧ (lowerC c).toNat ≤ 122 then some ((lowerC c).toNat - 97 + 10)
  else none

/-- The digit-accumulation loop of Go `strconv.ParseUint` with base 0 (so
underscores are tolerated here and validated afterwards): returns the
accumulated value, whether an underscore was seen, and the error.  A
non-digit or an out-of-base digit aborts with a syntax error and value 0;
overflow past `maxVal` aborts immediately with a range error and value
`maxVal`, exactly as the Go loop returns early. -/
def parseUintLoop (base cutoff maxVal : Nat) : List Char → Nat → Bool → Nat × Bool × Option NumErr
  | [], n, us => (n, us, none)
  | c :: rest, n, us =>
    if c = Char.ofNat 95 then parseUintLoop base cutoff maxVal rest n true
    else
      match digitVal c with
      | none => (0, us, some NumErr.invalid)
      | some d =>
        if base ≤ d then (0, us, some NumErr.invalid)
        else if cutoff ≤ n then (maxVal, us, some NumErr.range)
        else if maxVal < n * base + d then (maxVal, us, some NumErr.range)
        else parseUintLoop base cutoff maxVal rest (n * base + d) us

/-- The state loop of Go `strconv.underscoreOK`: `saw` is the class of the
previous character — 48 (a digit or the base prefix), 95 (an underscore),
33 (any other character), 94 (start of string). -/
def underscoreOKLoop (hex : Bool) : List Char → Char → Bool
  | [], saw => saw ≠ Char.ofNat 95
  | c :: rest, saw =>
    if (48 ≤ c.toNat ∧ c.toNat ≤ 57) ∨ (hex ∧ 97 ≤ (lowerC c).toNat ∧ (lowerC c).toNat ≤ 102) then
      underscoreOKLoop hex rest (Char.ofNat 48)
    else if c = Char.ofNat 95 then
      if saw ≠ Char.ofNat 48 then false else underscoreOKLoop hex rest (Char.ofNat 95)
    else underscoreOKLoop hex rest (Char.ofNat 33)

/-- Models Go `strconv.underscoreOK`: underscores may sit only between
digits (the base prefix counting as a digit), never leading, trailing, or
doubled. -/
def underscoreOK (s0 : List Char) : Bool :=
  let s := match s0 with
    | c :: rest => if c = '-' ∨ c = '+' then rest else s0
    | [] => s0
  match s with
  | c0 :: c1 :: rest =>
    if c0 = '0' ∧ (lowerC c1 = 'b' ∨ lowerC c1 = 'o' ∨ lowerC c1 = 'x') then
      underscoreOKLoop (lowerC c1 = 'x') rest (Char.ofNat 48)
    else underscoreOKLoop false s (Char.ofNat 94)
  | _ => underscoreOKLoop false s (Char.ofNat 94)

/-- Models Go `strconv.ParseUint(s, 0, 64)`: base detection from the `0b` /
`0o` / `0x` prefixes, a bare leading `0` meaning octal, otherwise decimal;
then the digit loop against the 64-bit cutoffs; finally the underscore
placement check (skipped when the loop aborted early, as in Go). -/
def goParseUint64 (s : List Char) : Nat × Option NumErr :=
  match s with
  | [] => (0, some NumErr.invalid)
  | _ =>
    let pb : Nat × List Char :=
      match s with
      | c0 :: c1 :: rest =>
        if c0 = '0' ∧ lowerC c1 = 'b' ∧ rest ≠ [] then (2, rest)
        else if c0 = '0' ∧ lowerC c1 = 'o' ∧ rest ≠ [] then (8, rest)
        else if c0 = '0' ∧ lowerC c1 = 'x' ∧ rest ≠ [] then (16, rest)
        else if c0 = '0' then (8, c1 :: rest)
        else (10, s)
      | [c0] => if c0 = '0' then (8, []) else (10, s)
      | [] => (10, s)
    let maxVal : Nat := 2 ^ 64 - 1
    match parseUintLoop pb.1 (maxVal / pb.1 + 1) maxVal pb.2 0 false with
    | (_, _, some NumErr.invalid) => (0, some NumErr.invalid)
    | (_, _, some NumErr.range) => (maxVal, some NumErr.range)
    | (n, us, none) =>
      if us ∧ ¬ underscoreOK s then (0, some NumErr.invalid) else (n, none)

/-- Models Go `strconv.ParseInt(s, 0, 64)` as called by `PGRow.ToInt64`:
sign handling, then `ParseUint`, then the signed 64-bit clamping — a value
beyond the range comes back saturated at `2^63 - 1` (or `-2^63`) together
with the range error, while a syntax error comes back as 0. -/
def goParseInt64 (str : String) : Int × Option NumErr :=
  match str.data with
  | [] => (0, some NumErr.invalid)
  | c :: rest =>
    let neg := c = '-'
    let body := if c = '-' ∨ c = '+' then rest else c :: rest
    match goParseUint64 body with
    | (_, some NumErr.invalid) => (0, some NumErr.invalid)
    | (un, _) =>
      if ¬ neg ∧ 2 ^ 63 ≤ un then ((2 : Int) ^ 63 - 1, some NumErr.range)
      else if neg ∧ 2 ^ 63 < un then (-(2 : Int) ^ 63, some NumErr.range)
      else (if neg then -(un : Int) else (un : Int), none)

/-- Models Go `strconv.ParseBool` as called by `PGRow.ToBoolean`: the twelve
accepted literals, anything else a syntax error. -/
def goParseBool (s : String) : Option Bool :=
  if s = "1" ∨ s = "t" ∨ s = "T" ∨ s = "true" ∨ s = "TRUE" ∨ s = "True" then some true
  else if s = "0" ∨ s = "f" ∨ s = "F" ∨ s = "false" ∨ s = "FALSE" ∨ s = "False" then some false
  else none

/-- Decimal digit of an ASCII character. -/
def dig (c : Char) : Option Nat :=
  if 48 ≤ c.toNat ∧ c.toNat ≤ 57 then some (c.toNat - 48) else none

/-- Two fixed digits forming a number constrained to `[lo, hi]`, as the
local `parseUint` helper of Go `time.parseRFC3339` reads each field. -/
def parse2 (a b : Char) (lo hi : Nat) : Option Nat :=
  match dig a, dig b with
  | some x, some y =>
    let v := 10 * x + y
    if lo ≤ v ∧ v ≤ hi then some v else none
  | _, _ => none

/-- Gregorian leap-year rule, as Go `time.isLeap`. -/
def isLeap (y : Int) : Bool := y % 4 = 0 ∧ (y % 100 ≠ 0 ∨ y % 400 = 0)

/-- Days in a month, as Go `time.daysIn`. -/
def daysIn (m : Nat) (y : Int) : Nat :=
  if m = 2 then (if isLeap y then 29 else 28)
  else if m = 4 ∨ m = 6 ∨ m = 9 ∨ m = 11 then 30
  else 31

/-- The maximal leading run of decimal digits and the remainder. -/
def takeDigits : List Char → List Nat × List Char
  | [] => ([], [])
  | c :: rest =>
    match dig c with
    | some d =>
      let r := takeDigits rest
      (d :: r.1, r.2)
    | none => ([], c :: rest)

/-- Nanoseconds from a fractional-second digit run, as Go
`time.parseNanoseconds`: the first nine digits, right-padded with zeros to
nine places (further digits are truncated). -/
def fracNanos (ds : List Nat) : Nat :=
  let t := ds.take 9
  (t.foldl (fun n d => 10 * n + d) 0) * 10 ^ (9 - t.length)

/-- The zone suffix of an RFC 3339 value as Go `time.parseRFC3339` accepts
it: exactly `Z`, or a signed `hh:mm` with hour at most 23 and minute at
most 59; the result is the offset in minutes. -/
def parseZone : List Char → Option Int
  | ['Z'] => some 0
  | c :: h1 :: h2 :: sep :: m1 :: m2 :: [] =>
    if (c = '+' ∨ c = '-') ∧ sep = ':' then
      match parse2 h1 h2 0 23, parse2 m1 m2 0 59 with
      | some hh, some mm => some ((if c = '-' then -1 else 1) * ((hh : Int) * 60 + (mm : Int)))
      | _, _ => none
    else none
  | _ => none

/-- Models `time.Parse(time.RFC3339Nano, s)` as called by `PGRow.ToTime`,
following the strict Go RFC 3339 parser: a four-digit year, two-digit month
(1-12), day (1 up to the length of the month), hour (0-23), minute and second
(0-59) with the fixed separators, an optional `.` + digit-run fraction, and
a `Z` or signed `hh:mm` zone.  (the Go fallback layout parser additionally
tolerates a comma before the fraction; that corner is not modelled.) -/
def parseRFC3339Nano (str : String) : Option GoTime :=
  match str.data with
  | y1 :: y2 :: y3 :: y4 :: s1 :: mo1 :: mo2 :: s2 :: d1 :: d2 :: tc :: h1 :: h2 :: c1 :: mi1 :: mi2 :: c2 :: se1 :: se2 :: rest =>
    match dig y1, dig y2, dig y3, dig y4 with
    | some a, some b, some c, some d =>
      let year : Nat := ((a * 10 + b) * 10 + c) * 10 + d
      if s1 = '-' ∧ s2 = '-' ∧ tc = 'T' ∧ c1 = ':' ∧ c2 = ':' then
        match parse2 mo1 mo2 1 12 with
        | some month =>
          match parse2 d1 d2 1 (daysIn month (year : Int)) with
          | some day =>
            match parse2 h1 h2 0 23, parse2 mi1 mi2 0 59, parse2 se1 se2 0 59 with
            | some hour, some minute, some second =>
              let fr : Nat × List Char :=
                match rest with
                | dot :: frest =>
                  if dot = '.' then
                    match takeDigits frest with
                    | ([], _) => (0, dot :: frest)
                    | (ds, rem) => (fracNanos ds, rem)
                  else (0, dot :: frest)
                | [] => (0, [])
              match parseZone fr.2 with
              | some off => some ⟨(year : Int), month, day, hour, minute, second, fr.1, off⟩
              | none => none
            | _, _, _ => none
          | none => none
        | none => none
      else none
    | _, _, _, _ => none
  | _ => none

/-- Go `strconv.NumError` message tails. -/
def numErrText : NumErr → String
  | NumErr.invalid => "invalid syntax"
  | NumErr.range => "value out of range"

/-- A Go `strconv.NumError` rendering, e.g.
`strconv.ParseInt: parsing "x": invalid syntax`. -/
def numErrMsg (fn v : String) (e : NumErr) : String :=
  "strconv." ++ fn ++ ": parsing " ++ "\"" ++ v ++ "\": " ++ numErrText e

/-- An abbreviated Go `time.ParseError` rendering (the full Go message also
repeats the unparsed tail; nothing here depends on its exact text). -/
def timeParseErrMsg (v : String) : String :=
  "parsing time " ++ "\"" ++ v ++ "\" as " ++ "\"" ++
    "2006-01-02T15:04:05.999999999Z07:00" ++ "\": cannot parse"

/-- Models `PGRow.ToByte` (postgres.go lines 147-149): `[]byte(pg[name])`,
the identity on the stored byte sequence (`""` for an absent column). -/
def PGRow.ToByte (pg : PGRow) (name : String) : String := rowGetD pg name

/-- Models `PGRow.ToBoolean` (postgres.go lines 151-157): the call never
fails; a parse error is logged via `Errorf` and the zero value `false` (the
value `ParseBool` returned) is handed back. -/
def PGRow.ToBoolean (pg : PGRow) (name : String) : Bool × List String :=
  match goParseBool (rowGetD pg name) with
  | some b => (b, [])
  | none => (false, ["PGRow.ToBoolean(" ++ quoteArg name ++ "): " ++
      numErrMsg "ParseBool" (rowGetD pg name) NumErr.invalid])

/-- Models `PGRow.ToInt64` (postgres.go lines 158-164): the call never
fails; the value `strconv.ParseInt(pg[name], 0, 64)` returned is handed
back unconditionally, and any parse error is logged via `Errorf`. -/
def PGRow.ToInt64 (pg : PGRow) (name : String) : Int × List String :=
  match goParseInt64 (rowGetD pg name) with
  | (v, none) => (v, [])
  | (v, some e) => (v, ["PGRow.ToInt64(" ++ quoteArg name ++ ", 0, 64): " ++
      numErrMsg "ParseInt" (rowGetD pg name) e])

/-- Models `PGRow.ToFloat64` (postgres.go lines 165-171) over an abstract
`FloatModel`: the value `strconv.ParseFloat(pg[name], 64)` returned is
handed back unconditionally, and any parse error is logged via `Errorf`. -/
def PGRow.ToFloat64 (pg : PGRow) (FM : FloatModel) (name : String) : GoFloat × List String :=
  match FM.parse (rowGetD pg name) with
  | (v, none) => (v, [])
  | (v, some e) => (v, ["PGRow.ToFloat64(" ++ quoteArg name ++ ", 64): " ++
      numErrMsg "ParseFloat" (rowGetD pg name) e])

/-- Models `PGRow.ToTime` (postgres.go lines 173-179): the call never
fails; a parse error is logged via `Errorf` and the zero `time.Time` is
handed back. -/
def PGRow.ToTime (pg : PGRow) (name : String) : GoTime × List String :=
  match parseRFC3339Nano (rowGetD pg name) with
  | some t => (t, [])
  | none => (zeroTime, ["PGRow.ToTime(" ++ quoteArg name ++ "): " ++
      timeParseErrMsg (rowGetD pg name)])

/-- The display substitution carried out up to argument index `bound`: a
scan of the query in which a dollar sign followed by the single digit of an
argument index `n` with `1 ≤ n ≤ args.length` and `n ≤ bound` is replaced
by the quoted `n`-th argument, everything else passing through.  At
`bound = args.length` this is the simultaneous substitution `specSubstL`;
at `bound = i` it is the state of the query text after the first
`i` sequential passes. -/
def boundedSubst (args : List String) (bound : Nat) : List Char → List Char
  | [] => []
  | c :: rest =>
    if c = '$' then
      match rest with
      | [] => [c]
      | d :: rest2 =>
        match dig d with
        | some n =>
          if 1 ≤ n ∧ n ≤ args.length ∧ n ≤ bound then
            (quoteArg (args.getD (n - 1) "")).data ++ boundedSubst args bound rest2
          else c :: boundedSubst args bound (d :: rest2)
        | none => c :: boundedSubst args bound (d :: rest2)
    else c :: boundedSubst args bound rest

/-- Modelled from the spec: the claimed diagnostic rendering — one
simultaneous pass over the query text substituting each placeholder `$N`
(a dollar sign followed by the digit of an argument index, `1 ≤ N ≤
args.length`) with the `N`-th argument treated as a string literal wrapped
in quotes, all other characters passing through unchanged.  With at most
nine arguments every placeholder index is a single digit, so the scan
reads one digit. -/
def specSubstL (args : List String) : List Char → List Char
  | [] => []
  | c :: rest =>
    if c = '$' then
      match rest with
      | [] => [c]
      | d :: rest2 =>
        match dig d with
        | some n =>
          if 1 ≤ n ∧ n ≤ args.length then
            (quoteArg (args.getD (n - 1) "")).data ++ specSubstL args rest2
          else c :: specSubstL args (d :: rest2)
        | none => c :: specSubstL args (d :: rest2)
    else c :: specSubstL args rest

/-- A concrete `FloatModel` placeholder used only to instantiate witnesses
(the theorems themselves hold for every `FloatModel`). -/
def trivFM : FloatModel :=
  ⟨fun _ => "0", fun _ => (⟨false, 0, 0⟩, some NumErr.invalid)⟩

/-- C3: for every transaction scope, `Commit()` and `Rollback()` leave the
`Closed` flag true — the flag is assigned before the underlying
`sql.Tx` call, so this holds whatever that call does (driver error, or even
the nil-handle panic), i.e. unconditionally in the scope argument. -/
theorem commit_rollback_always_close (stx : PGTx) :
    (stx.Commit).1.Closed = true ∧ (stx.Rollback).1.Closed = true := by
  cases h : stx.tx <;> simp [PGTx.Commit, PGTx.Rollback, h]

/-- C10: `Begin` always returns a scope with `Closed = false`; when
`BeginTx` failed, the same scope is still returned alongside the error, its
wrapped transaction is nil, and every subsequent operation on it
(`Commit`, `Rollback`, `QueryOne`) hits a nil-pointer dereference; on
success the scope wraps the live handle with a nil error. -/
theorem begin_always_returns_open_scope (beginRes : Except String TxObj) :
    (Begin beginRes).1.Closed = false ∧
    (∀ e, beginRes = .error e →
      (Begin beginRes).2 = some e ∧
      (Begin beginRes).1.tx = none ∧
      ((Begin beginRes).1.Commit).2 = .panicked nilDeref ∧
      ((Begin beginRes).1.Rollback).2 = .panicked nilDeref ∧
      ∀ FM driver q args,
        ((Begin beginRes).1.QueryOne FM driver q args) = .panicked nilDeref) ∧
    (∀ t, beginRes = .ok t → (Begin beginRes).2 = none ∧ (Begin beginRes).1.tx = some t) := by
  cases beginRes <;>
    simp [Begin, PGTx.Commit, PGTx.Rollback, PGTx.QueryOne, queryOneWith]

/-- Witness for `begin_always_returns_open_scope` at the failing input
`BeginTx = error "no connection"`. -/
theorem begin_always_returns_open_scope_witness :
    (Begin (Except.error "no connection")).1.Closed = false ∧
    (Begin (Except.error "no connection")).2 = some "no connection" ∧
    ((Begin (Except.error "no connection")).1.Commit).2 = .panicked nilDeref := by
  have h := begin_always_returns_open_scope (Except.error "no connection")
  exact ⟨h.1, (h.2.1 "no connection" rfl).1, (h.2.1 "no connection" rfl).2.2.1⟩

/-- C8: a `NotificationChannel` fresh from `CreateChannel` closes exactly
once — the first `Close()` returns with a nil error having marked both the
`fail` signal channel and the listener closed — and a second `Close()` on
the resulting state panics with the Go double-close message. -/
theorem notify_close_once_then_panics (firstEventErr : Option String) :
    ((CreateChannel firstEventErr).1).Close =
      .ok ({ failClosed := true, lnClosed := true }, none) ∧
    (PGNotify.Close { failClosed := true, lnClosed := true }) =
      .panicked "close of closed channel" := by
  exact ⟨rfl, rfl⟩

/-- C6 counterexample: the code keys SSL mode off the substring
`"localhost"`, not off loopback resolution.  The literal loopback address
`127.0.0.1` gets `sslmode=require`, while the non-loopback host name
`localhost.attacker.example` (which merely contains the substring) gets
`sslmode=disable` — both directions of the claimed iff fail. -/
theorem sslmode_loopback_counterexample :
    sslmodeFor "127.0.0.1" = "require" ∧
    goContains "127.0.0.1" "localhost" = false ∧
    sslmodeFor "localhost.attacker.example" = "disable" ∧
    goContains "localhost.attacker.example" "localhost" = true := by
  refine ⟨by decide, by decide, by decide, by decide⟩

/-- A pattern occurs in any list that embeds it between a prefix and a
suffix. -/
theorem hasSub_of_append (sub : List Char) :
    ∀ pre suf : List Char, hasSub sub (pre ++ (sub ++ suf)) = true := by
  intro pre
  induction pre with
  | nil =>
    intro suf
    cases sub with
    | nil => cases suf <;> simp [hasSub]
    | cons c rest =>
      simp only [List.nil_append, hasSub, List.cons_append]
      have : (c :: rest).isPrefixOf ((c :: rest) ++ suf) = true := by
        simp [ List.isPrefixOf_iff_prefix]
      simp [List.cons_append, this]
  | cons p ps ih =>
    intro suf
    cases sub with
    | nil => simp [hasSub]
    | cons c rest =>
      simp only [List.cons_append, hasSub, Bool.or_eq_true]
      right
      simpa [List.cons_append] using ih suf

/-- C6 (amended): the SSL mode of the DSN is `"disable"` iff the configured host
string contains the substring `"localhost"` and `"require"` otherwise
(host resolution plays no part), and the assembled DSN embeds exactly that
choice after the `sslmode=` key. -/
theorem sslmode_localhost_substring_rule (env : EnvConfig) (app : String) :
    (sslmodeFor env.host = "disable" ↔ goContains env.host "localhost" = true) ∧
    (sslmodeFor env.host = "require" ↔ goContains env.host "localhost" = false) ∧
    goContains (getDSN env app) ("sslmode=" ++ sslmodeFor env.host) = true := by
  refine ⟨?_, ?_, ?_⟩
  · unfold sslmodeFor
    split <;> simp_all
  · unfold sslmodeFor
    split <;> simp_all
  · show hasSub _ _ = true
    have hdata : (getDSN env app).data =
        ("host=" ++ env.host ++ " port=" ++ env.port ++ " user=" ++ env.user ++
          " password=" ++ env.password ++ " dbname=" ++ env.dbname ++ " ").data ++
        ((("sslmode=" ++ sslmodeFor env.host) : String).data ++
          (" application_name=" ++ sqs ++ app ++ sqs).data) := by
      simp only [getDSN, String.data_append, List.append_assoc, List.cons_append,
        List.nil_append]
    rw [hdata]
    exact hasSub_of_append _ _ _

/-- The `FetchAll` loop discards everything and reports no error as soon as
one row fails to decode, whatever the accumulator already holds. -/
theorem fetchAllAux_error_swallowed (FM : FloatModel) :
    ∀ (rows : List RawRow) (acc : List PGRow),
      (∃ r ∈ rows, ((fetchRow FM r).1.2).isSome = true) →
      fetchAllAux FM rows acc = ([], none) := by
  intro rows
  induction rows with
  | nil => intro acc h; simp at h
  | cons r rest ih =>
    intro acc h
    rcases hfr : fetchRow FM r with ⟨⟨d, e⟩, logs⟩
    cases e with
    | some err => simp [fetchAllAux, hfr]
    | none =>
      have hrest : ∃ x ∈ rest, ((fetchRow FM x).1.2).isSome = true := by
        rcases h with ⟨x, hx, hsome⟩
        rcases List.mem_cons.mp hx with h1 | h2
        · subst h1; rw [hfr] at hsome; simp at hsome
        · exact ⟨x, h2, hsome⟩
      simp [fetchAllAux, hfr, ih _ hrest]

/-- C1: if decoding any row of the cursor fails, `FetchAll` returns the
empty record set together with a nil error — no row survives, no
surfaced decode error. -/
theorem fetchAll_decode_failure_yields_empty_and_nil (FM : FloatModel)
    (rows : List RawRow)
    (h : ∃ r ∈ rows, ((fetchRow FM r).1.2).isSome = true) :
    FetchAll FM rows = ([], none) :=
  fetchAllAux_error_swallowed FM rows [] h

/-- Witness for `fetchAll_decode_failure_yields_empty_and_nil`: a cursor
whose second row scan fails, after a first row that decodes fine. -/
theorem fetchAll_decode_failure_witness :
    (∃ r ∈ [RawRow.vals [("a", GoValue.vint64 1)], RawRow.scanFail false "broken"],
      ((fetchRow trivFM r).1.2).isSome = true) ∧
    FetchAll trivFM [RawRow.vals [("a", GoValue.vint64 1)], RawRow.scanFail false "broken"] =
      ([], none) := by
  have hx : ∃ r ∈ [RawRow.vals [("a", GoValue.vint64 1)], RawRow.scanFail false "broken"],
      ((fetchRow trivFM r).1.2).isSome = true :=
    ⟨RawRow.scanFail false "broken", by simp, by rfl⟩
  exact ⟨hx, fetchAll_decode_failure_yields_empty_and_nil trivFM _ hx⟩

/-- `fetchRow` never produces a nil map together with a nil error. -/
theorem fetchRow_not_nil_nil (FM : FloatModel) (r : RawRow) :
    ¬((fetchRow FM r).1.1 = none ∧ (fetchRow FM r).1.2 = none) := by
  cases r with
  | colsErr e => simp [fetchRow]
  | scanFail b e => cases b <;> simp [fetchRow]
  | vals cols => simp [fetchRow]

/-- C2: for a scope holding a live transaction, a query whose result set is
empty makes `QueryOne` (and `QueryOnePrint`) return a nil row with the
distinguished `empty record` error; no outcome ever pairs a nil row with a
nil error; and a driver failure surfaces as a `QueryOne::`-wrapped message,
which is never the `empty record` value. -/
theorem queryOne_empty_record (FM : FloatModel) (stx : PGTx) (t : TxObj)
    (h : stx.tx = some t) (driver : DriverCall → Except String (List RawRow))
    (q : String) (args : List String) :
    (driver ⟨q, args⟩ = .ok [] →
      stx.QueryOne FM driver q args = .ok ((none, some "empty record"), none) ∧
      stx.QueryOnePrint FM driver q args =
        .ok ((none, some "empty record"), some (substArgs q args))) ∧
    (∀ out, stx.QueryOne FM driver q args = .ok out →
      ¬(out.1.1 = none ∧ out.1.2 = none)) ∧
    (∀ e, driver ⟨q, args⟩ = .error e →
      stx.QueryOne FM driver q args = .ok ((none, some ("QueryOne::" ++ e)), none) ∧
      "QueryOne::" ++ e ≠ "empty record") := by
  refine ⟨?_, ?_, ?_⟩
  · intro hdrv
    constructor <;>
      simp [PGTx.QueryOne, PGTx.QueryOnePrint, queryOneWith, h, sctxQuery, queryOneCore, hdrv]
  · intro out hout hnil
    rw [PGTx.QueryOne, queryOneWith, h] at hout
    rcases hresp : driver (sctxQuery false q args).1 with e | rows
    · rw [hresp] at hout
      simp [queryOneCore] at hout
      rw [← hout] at hnil
      simp at hnil
    · rw [hresp] at hout
      cases rows with
      | nil =>
        simp [queryOneCore] at hout
        rw [← hout] at hnil
        simp at hnil
      | cons r rs =>
        simp [queryOneCore] at hout
        have := fetchRow_not_nil_nil FM r
        rw [← hout] at hnil
        simp at hnil
        exact this ⟨hnil.1, hnil.2⟩
  · intro e hdrv
    constructor
    · simp [PGTx.QueryOne, queryOneWith, h, sctxQuery, queryOneCore, hdrv]
    · intro heq
      have h2 : ("QueryOne::" ++ e).data.head? = ("empty record" : String).data.head? := by
        rw [heq]
      rw [String.data_append] at h2
      have h3 : ("QueryOne::" : String).data = 'Q' :: "ueryOne::".data := rfl
      have h4 : ("empty record" : String).data = 'e' :: "mpty record".data := rfl
      rw [h3, h4] at h2
      simp at h2

/-- Witness for `queryOne_empty_record`: a live scope, a driver answering
with an empty result set. -/
theorem queryOne_empty_record_witness :
    PGTx.QueryOne { Closed := false, tx := some { commitErr := none, rollbackErr := none } }
        trivFM (fun _ => .ok []) "SELECT 1" [] =
      .ok ((none, some "empty record"), none) := by
  exact ((queryOne_empty_record trivFM _ { commitErr := none, rollbackErr := none } rfl
    (fun _ => .ok []) "SELECT 1" []).1 rfl).1

/-- Go map write/read: reading back the written key yields the written
value. -/
theorem rowGet?_rowSet_self (m : PGRow) (k v : String) :
    rowGet? (rowSet m k v) k = some v := by
  induction m with
  | nil => simp [rowSet, rowGet?]
  | cons p rest ih =>
    rcases p with ⟨k2, v2⟩
    by_cases hk : k2 = k
    · simp [rowSet, rowGet?, hk]
    · simp [rowSet, rowGet?, hk, ih]

/-- Go map write/read: other keys are untouched. -/
theorem rowGet?_rowSet_other (m : PGRow) (k v k2 : String) (h : k ≠ k2) :
    rowGet? (rowSet m k v) k2 = rowGet? m k2 := by
  induction m with
  | nil => simp [rowSet, rowGet?, h]
  | cons p rest ih =>
    rcases p with ⟨k3, v3⟩
    by_cases h3 : k3 = k
    · subst h3
      simp [rowSet, rowGet?, h]
    · by_cases h4 : k3 = k2 <;> simp [rowSet, rowGet?, h3, h4, ih, Ne.symm h]

/-- A present key stays present across a Go map write. -/
theorem rowGet?_rowSet_isSome (m : PGRow) (k v k2 : String)
    (h : (rowGet? m k2).isSome = true ∨ k = k2) :
    (rowGet? (rowSet m k v) k2).isSome = true := by
  by_cases hk : k = k2
  · subst hk
    simp [rowGet?_rowSet_self]
  · rw [rowGet?_rowSet_other m k v k2 hk]
    rcases h with h | h
    · exact h
    · exact absurd h hk

/-- The decode loop never removes a key from the accumulator map. -/
theorem decodeLoop_get_preserved (FM : FloatModel) (cols : List (String × GoValue)) :
    ∀ (m : PGRow) (logs : List String) (k : String),
      (rowGet? m k).isSome = true →
      (rowGet? (decodeLoop FM cols m logs).1 k).isSome = true := by
  induction cols with
  | nil => intro m logs k h; simpa [decodeLoop] using h
  | cons q rest ih =>
    intro m logs k h
    rcases q with ⟨nm, v⟩
    simp only [decodeLoop]
    exact ih _ _ _ (rowGet?_rowSet_isSome m nm _ k (Or.inl h))

/-- Every column fed to the decode loop ends up as a key of the map. -/
theorem decodeLoop_mem_isSome (FM : FloatModel) (cols : List (String × GoValue)) :
    ∀ (m : PGRow) (logs : List String), ∀ p ∈ cols,
      (rowGet? (decodeLoop FM cols m logs).1 p.1).isSome = true := by
  induction cols with
  | nil => simp
  | cons q rest ih =>
    intro m logs p hp
    rcases q with ⟨nm, v⟩
    rcases List.mem_cons.mp hp with h1 | h2
    · subst h1
      simp only [decodeLoop]
      exact decodeLoop_get_preserved FM rest _ _ _
        (rowGet?_rowSet_isSome m nm _ (nm, v).1 (Or.inr rfl))
    · simp only [decodeLoop]
      exact ih _ _ p h2

/-- Keys not named by any remaining column are left as the accumulator has
them. -/
theorem decodeLoop_get_notmem (FM : FloatModel) (cols : List (String × GoValue)) :
    ∀ (m : PGRow) (logs : List String) (k : String), k ∉ cols.map Prod.fst →
      rowGet? (decodeLoop FM cols m logs).1 k = rowGet? m k := by
  induction cols with
  | nil => intro m logs k _; simp [decodeLoop]
  | cons q rest ih =>
    intro m logs k hk
    rcases q with ⟨nm, v⟩
    simp only [List.map_cons, List.mem_cons, not_or] at hk
    simp only [decodeLoop]
    rw [ih _ _ _ hk.2]
    exact rowGet?_rowSet_other m nm _ k (fun h => hk.1 h.symm)

/-- With pairwise-distinct column names, the key of each column maps to exactly
its rendered value. -/
theorem decodeLoop_get_nodup (FM : FloatModel) (cols : List (String × GoValue)) :
    ∀ (m : PGRow) (logs : List String), (cols.map Prod.fst).Nodup →
      ∀ p ∈ cols, rowGet? (decodeLoop FM cols m logs).1 p.1 = some (renderValue FM p.2).1 := by
  induction cols with
  | nil => simp
  | cons q rest ih =>
    intro m logs hnd p hp
    rcases q with ⟨nm, v⟩
    rw [List.map_cons] at hnd
    have hnd2 := List.nodup_cons.mp hnd
    rcases List.mem_cons.mp hp with h1 | h2
    · subst h1
      simp only [decodeLoop]
      rw [decodeLoop_get_notmem FM rest _ _ _ hnd2.1]
      exact rowGet?_rowSet_self m nm _
    · simp only [decodeLoop]
      exact ih _ _ hnd2.2 p h2

/-- The log output of the decode loop is the concatenation of the per-value
logs. -/
theorem decodeLoop_logs (FM : FloatModel) (cols : List (String × GoValue)) :
    ∀ (m : PGRow) (logs : List String),
      (decodeLoop FM cols m logs).2 =
        logs ++ cols.flatMap (fun p => (renderValue FM p.2).2) := by
  induction cols with
  | nil => intro m logs; simp [decodeLoop]
  | cons q rest ih =>
    intro m logs
    rcases q with ⟨nm, v⟩
    simp [decodeLoop, ih, List.append_assoc]

/-- A value logs during decode exactly when its runtime type is
unrecognized. -/
theorem renderValue_logs_iff (FM : FloatModel) (v : GoValue) :
    ((renderValue FM v).2 = []) ↔ v.isUnrecognized = false := by
  cases v <;> simp [renderValue, GoValue.isUnrecognized]

/-- C5: for a scanned row, `fetchRow` succeeds with the decoded map; every
result column appears as a key; with distinct column names each key holds
its value rendered per type — `int64` in decimal, `float64` by the float
formatter, `bool` as `true`/`false`, bytes by direct text decoding, strings
passed through, timestamps in RFC 3339 with nanoseconds, null as the empty
string, an unrecognized runtime type as the empty string; and a decode
error is logged exactly when the type of some column is unrecognized, the other
columns being populated by the same per-column rule. -/
theorem fetchRow_decodes_every_column (FM : FloatModel) (cols : List (String × GoValue)) :
    (fetchRow FM (.vals cols)).1 = (some (decodeRow FM cols), none) ∧
    (∀ p ∈ cols, (rowGet? (decodeRow FM cols) p.1).isSome = true) ∧
    ((cols.map Prod.fst).Nodup →
      ∀ p ∈ cols, rowGet? (decodeRow FM cols) p.1 = some (renderValue FM p.2).1) ∧
    (decodeLogs FM cols = [] ↔ ∀ p ∈ cols, p.2.isUnrecognized = false) ∧
    (∀ i, (renderValue FM (.vint64 i)).1 = toString i) ∧
    (∀ f, (renderValue FM (.vfloat64 f)).1 = FM.fmtG f) ∧
    (∀ b, (renderValue FM (.vbool b)).1 = cond b "true" "false") ∧
    (∀ s, (renderValue FM (.vstring s)).1 = s) ∧
    (∀ s, (renderValue FM (.vbytes s)).1 = s) ∧
    (∀ t, (renderValue FM (.vtime t)).1 = formatRFC3339Nano t) ∧
    (renderValue FM .vnull).1 = "" ∧
    (∀ ty, renderValue FM (.vother ty) = ("", ["Reflect TypeOf: " ++ ty ++ " "])) := by
  refine ⟨rfl, ?_, ?_, ?_, fun i => rfl, fun f => rfl, fun b => rfl, fun s => rfl,
    fun s => rfl, fun t => rfl, rfl, fun ty => rfl⟩
  · exact decodeLoop_mem_isSome FM cols [] []
  · exact decodeLoop_get_nodup FM cols [] []
  · unfold decodeLogs
    rw [decodeLoop_logs FM cols [] []]
    simp only [List.nil_append, List.flatMap_eq_nil_iff]
    constructor
    · intro h p hp
      exact (renderValue_logs_iff FM p.2).mp (h _ hp)
    · intro h l hl
      exact (renderValue_logs_iff FM _).mpr (h _ hl)

/-- Witness for `fetchRow_decodes_every_column` on a concrete three-column
row (an integer, a null, an unrecognized type): the nodup hypothesis is
discharged and the integer column reads back as its decimal rendering. -/
theorem fetchRow_decodes_every_column_witness :
    (([("a", GoValue.vint64 7), ("b", GoValue.vnull),
        ("c", GoValue.vother "map[string]int")].map Prod.fst).Nodup) ∧
    rowGet? (decodeRow trivFM [("a", GoValue.vint64 7), ("b", GoValue.vnull),
        ("c", GoValue.vother "map[string]int")]) "a" = some "7" ∧
    rowGet? (decodeRow trivFM [("a", GoValue.vint64 7), ("b", GoValue.vnull),
        ("c", GoValue.vother "map[string]int")]) "c" = some "" := by
  have hnd : (([("a", GoValue.vint64 7), ("b", GoValue.vnull),
      ("c", GoValue.vother "map[string]int")].map Prod.fst).Nodup) := by decide
  have h := (fetchRow_decodes_every_column trivFM
    [("a", GoValue.vint64 7), ("b", GoValue.vnull), ("c", GoValue.vother "map[string]int")]).2.2.1 hnd
  refine ⟨hnd, ?_, ?_⟩
  · simpa using h ("a", GoValue.vint64 7) (by simp)
  · simpa using h ("c", GoValue.vother "map[string]int") (by simp)

/-- What `strconv.ParseInt(s, 0, 64)` can hand back: success; a syntax
error with value 0; or a range error with the value saturated at the signed
64-bit bound. -/
theorem goParseInt64_cases (s : String) :
    (goParseInt64 s).2 = none ∨
    ((goParseInt64 s).2 = some NumErr.invalid ∧ (goParseInt64 s).1 = 0) ∨
    ((goParseInt64 s).2 = some NumErr.range ∧
      ((goParseInt64 s).1 = 2 ^ 63 - 1 ∨ (goParseInt64 s).1 = -(2 ^ 63))) := by
  rcases hd : s.data with _ | ⟨c, rest⟩
  · simp [goParseInt64, hd]
  · rcases hpu : goParseUint64 (if c = '-' ∨ c = '+' then rest else c :: rest) with ⟨un, e⟩
    rcases e with _ | e2
    · simp only [goParseInt64, hd, hpu]
      split_ifs <;> simp
    · cases e2
      · simp [goParseInt64, hd, hpu]
      · simp only [goParseInt64, hd, hpu]
        split_ifs <;> simp

/-- C9 (amended): every typed accessor totalizes its parser — the call
never fails; it hands back exactly the value the underlying parser
returned, logging if and only if the parse errored.  For `ToBoolean` and
`ToTime` that value is the zero value of the type on error; for `ToInt64` (and
the `strconv` contract of `ToFloat64`) a syntax error yields the zero value but
a range error yields the saturated extreme, not zero. -/
theorem accessors_log_and_degrade (FM : FloatModel) (pg : PGRow) (name : String) :
    ((pg.ToBoolean name).1 = (goParseBool (rowGetD pg name)).getD false) ∧
    ((pg.ToBoolean name).2 = [] ↔ (goParseBool (rowGetD pg name)).isSome = true) ∧
    ((pg.ToInt64 name).1 = (goParseInt64 (rowGetD pg name)).1) ∧
    ((pg.ToInt64 name).2 = [] ↔ (goParseInt64 (rowGetD pg name)).2 = none) ∧
    ((pg.ToFloat64 FM name).1 = (FM.parse (rowGetD pg name)).1) ∧
    ((pg.ToFloat64 FM name).2 = [] ↔ (FM.parse (rowGetD pg name)).2 = none) ∧
    ((pg.ToTime name).1 = (parseRFC3339Nano (rowGetD pg name)).getD zeroTime) ∧
    ((pg.ToTime name).2 = [] ↔ (parseRFC3339Nano (rowGetD pg name)).isSome = true) ∧
    (∀ s, (goParseInt64 s).2 = some NumErr.invalid → (goParseInt64 s).1 = 0) ∧
    (∀ s, (goParseInt64 s).2 = some NumErr.range →
      (goParseInt64 s).1 = 2 ^ 63 - 1 ∨ (goParseInt64 s).1 = -(2 ^ 63)) := by
  refine ⟨?_, ?_, ?_, ?_, ?_, ?_, ?_, ?_, ?_, ?_⟩
  · cases hb : goParseBool (rowGetD pg name) <;> simp [PGRow.ToBoolean, hb]
  · cases hb : goParseBool (rowGetD pg name) <;> simp [PGRow.ToBoolean, hb]
  · rcases hi : goParseInt64 (rowGetD pg name) with ⟨v, e⟩
    cases e <;> simp [PGRow.ToInt64, hi]
  · rcases hi : goParseInt64 (rowGetD pg name) with ⟨v, e⟩
    cases e <;> simp [PGRow.ToInt64, hi]
  · rcases hf : FM.parse (rowGetD pg name) with ⟨v, e⟩
    cases e <;> simp [PGRow.ToFloat64, hf]
  · rcases hf : FM.parse (rowGetD pg name) with ⟨v, e⟩
    cases e <;> simp [PGRow.ToFloat64, hf]
  · cases ht : parseRFC3339Nano (rowGetD pg name) <;> simp [PGRow.ToTime, ht]
  · cases ht : parseRFC3339Nano (rowGetD pg name) <;> simp [PGRow.ToTime, ht]
  · intro s h
    rcases goParseInt64_cases s with h1 | h1 | h1
    · rw [h1] at h; cases h
    · exact h1.2
    · rw [h1.1] at h; cases h
  · intro s h
    rcases goParseInt64_cases s with h1 | h1 | h1
    · rw [h1] at h; cases h
    · rw [h1.1] at h; cases h
    · exact h1.2

/-- Witness for `accessors_log_and_degrade`, exercising the range-error
conjunct at the first signed-64-bit overflow value. -/
theorem accessors_log_and_degrade_witness :
    (goParseInt64 "9223372036854775808").2 = some NumErr.range ∧
    ((goParseInt64 "9223372036854775808").1 = 2 ^ 63 - 1 ∨
      (goParseInt64 "9223372036854775808").1 = -(2 ^ 63)) := by
  have h := accessors_log_and_degrade trivFM [("n", "12")] "n"
  exact ⟨by decide, h.2.2.2.2.2.2.2.2.2 "9223372036854775808" (by decide)⟩

/-- C9 counterexample: on the out-of-range literal `9223372036854775808`
the accessor logs a parse error yet returns the saturated value
`2^63 - 1` — not the zero value of the 64-bit integer type as claimed. -/
theorem toInt64_range_error_not_zero :
    (PGRow.ToInt64 [("n", "9223372036854775808")] "n").1 = 2 ^ 63 - 1 ∧
    ((2 : Int) ^ 63 - 1 ≠ 0) ∧
    (PGRow.ToInt64 [("n", "9223372036854775808")] "n").2 ≠ [] := by
  refine ⟨by decide, by decide, by decide⟩

/-- The fuel argument of `replaceFuel` is irrelevant once it covers the
length of the subject. -/
theorem replaceFuel_congr (pat rep : List Char) :
    ∀ (f1 f2 : Nat) (s : List Char), s.length ≤ f1 → s.length ≤ f2 →
      replaceFuel pat rep f1 s = replaceFuel pat rep f2 s := by
  intro f1
  induction f1 with
  | zero =>
    intro f2 s h1 h2
    have hs : s = [] := List.eq_nil_of_length_eq_zero (Nat.le_zero.mp h1)
    subst hs
    cases f2 <;> rfl
  | succ n ih =>
    intro f2 s h1 h2
    cases s with
    | nil => cases f2 <;> rfl
    | cons c rest =>
      cases f2 with
      | zero => simp at h2
      | succ m =>
        simp only [replaceFuel]
        by_cases hm : pat ≠ [] ∧ pat.isPrefixOf (c :: rest)
        · rw [if_pos hm, if_pos hm]
          have hlp : 0 < pat.length := List.length_pos.mpr hm.1
          have hdl : (List.drop pat.length (c :: rest)).length ≤ rest.length := by
            simp only [List.length_drop, List.length_cons]
            omega
          simp only [List.length_cons] at h1 h2
          exact congrArg (rep ++ ·) (ih m _ (by omega) (by omega))
        · rw [if_neg hm, if_neg hm]
          simp only [List.length_cons] at h1 h2
          exact congrArg (c :: ·) (ih m rest (by omega) (by omega))

/-- One step of `replaceAllL` on a nonempty subject. -/
theorem replaceAllL_cons (pat rep : List Char) (c : Char) (l : List Char) (hp : pat ≠ []) :
    replaceAllL pat rep (c :: l) =
      if pat.isPrefixOf (c :: l) = true then
        rep ++ replaceAllL pat rep (List.drop pat.length (c :: l))
      else c :: replaceAllL pat rep l := by
  have h1 : replaceAllL pat rep (c :: l) = replaceFuel pat rep (l.length + 1) (c :: l) := rfl
  rw [h1]
  simp only [replaceFuel, hp, ne_eq, not_false_iff, true_and]
  have hlp : 0 < pat.length := List.length_pos.mpr hp
  by_cases hm : pat.isPrefixOf (c :: l) = true
  · rw [if_pos hm, if_pos hm]
    refine congrArg (rep ++ ·) (replaceFuel_congr pat rep _ _ _ ?_ le_rfl)
    simp only [List.length_drop, List.length_cons]
    omega
  · rw [if_neg hm, if_neg hm]
    rfl

/-- A block containing no occurrence of the first character of the pattern
passes through `replaceAllL` untouched. -/
theorem replaceAllL_skip (p0 : Char) (pt rep : List Char) :
    ∀ (xs l : List Char), p0 ∉ xs →
      replaceAllL (p0 :: pt) rep (xs ++ l) = xs ++ replaceAllL (p0 :: pt) rep l := by
  intro xs
  induction xs with
  | nil => intro l _; simp
  | cons x xs2 ih =>
    intro l hx
    simp only [List.mem_cons, not_or] at hx
    rw [List.cons_append, replaceAllL_cons _ _ _ _ (by simp)]
    have hnope : (p0 :: pt).isPrefixOf (x :: (xs2 ++ l)) = false := by
      have hxp : (p0 == x) = false := beq_eq_false_iff_ne.mpr hx.1
      simp [List.isPrefixOf, hxp]
    rw [hnope]
    simp only [Bool.false_eq_true, if_false, List.cons_append]
    exact congrArg (x :: ·) (ih l hx.2)

/-- `replaceAllL` fires on a subject starting with the pattern. -/
theorem replaceAllL_match (pat rep l : List Char) (hp : pat ≠ []) :
    replaceAllL pat rep (pat ++ l) = rep ++ replaceAllL pat rep l := by
  cases pat with
  | nil => cases hp rfl
  | cons p0 pt =>
    rw [List.cons_append, replaceAllL_cons _ _ _ _ (by simp)]
    have hpre : (p0 :: pt).isPrefixOf (p0 :: (pt ++ l)) = true := by
      rw [← List.cons_append]
      simp [ List.isPrefixOf_iff_prefix, List.prefix_append]
    rw [hpre]
    have hd : List.drop (p0 :: pt).length (p0 :: (pt ++ l)) = l := by
      rw [← List.cons_append]
      exact List.drop_left _ _
    simp [hd]

/-- Characters with equal code points are equal. -/
theorem char_toNat_inj {a b : Char} (h : a.toNat = b.toNat) : a = b :=
  StrictMono.injective (f := Char.toNat) (fun _ _ hh => hh) h

/-- A successful digit read pins down the code point of the character. -/
theorem dig_eq_some {d : Char} {n : Nat} (h : dig d = some n) :
    d.toNat = 48 + n ∧ n ≤ 9 := by
  unfold dig at h
  by_cases hd : 48 ≤ d.toNat ∧ d.toNat ≤ 57
  · rw [if_pos hd] at h
    injection h with h2
    omega
  · rw [if_neg hd] at h
    cases h

/-- A digit character is not the dollar sign. -/
theorem dig_ne_dollar {d : Char} {n : Nat} (h : dig d = some n) : d ≠ '$' := by
  intro he
  subst he
  rw [show dig '$' = none from by decide] at h
  cases h

/-- Two characters carrying the same digit are equal. -/
theorem dig_inj {d e : Char} {n : Nat} (hd : dig d = some n) (he : dig e = some n) :
    d = e :=
  char_toNat_inj (by rw [(dig_eq_some hd).1, (dig_eq_some he).1])

/-- Characters carrying different digits differ. -/
theorem dig_ne {d e : Char} {n m : Nat} (hd : dig d = some n) (he : dig e = some m)
    (hnm : n ≠ m) : d ≠ e := by
  intro h
  subst h
  rw [hd] at he
  injection he with h2
  exact hnm h2

/-- A digit character is not the single quote. -/
theorem dig_ne_quote {d : Char} {n : Nat} (h : dig d = some n) : d ≠ sqc := by
  intro he
  have h1 := (dig_eq_some h).1
  rw [he, show sqc.toNat = 39 from by decide] at h1
  omega

/-- The characters of a quoted argument. -/
theorem quoteArg_data (a : String) : (quoteArg a).data = sqc :: (a.data ++ [sqc]) := by
  show (sqs ++ a ++ sqs).data = _
  rw [String.data_append, String.data_append]
  rfl

/-- The dollar sign does not occur in the quoted rendering of an argument when
it does not occur in the argument. -/
theorem quoteArg_no_dollar (a : String) (ha : '$' ∉ a.data) :
    '$' ∉ (quoteArg a).data := by
  rw [quoteArg_data]
  simp only [List.mem_cons, List.mem_append, List.mem_singleton, not_or]
  refine ⟨by decide, ha, by decide⟩

/-- `replaceAllL` with a two-character pattern steps over a subject whose
head is not the first character of the pattern. -/
theorem step_nomatch_head (c2 : Char) (rep : List Char) (c : Char) (X : List Char)
    (hc : c ≠ '$') :
    replaceAllL ['$', c2] rep (c :: X) = c :: replaceAllL ['$', c2] rep X := by
  rw [replaceAllL_cons _ _ _ _ (by simp)]
  have hnope : (['$', c2] : List Char).isPrefixOf (c :: X) = false := by
    have hxp : ('$' == c) = false := beq_eq_false_iff_ne.mpr (fun h => hc h.symm)
    simp [List.isPrefixOf, hxp]
  simp [hnope]

/-- `replaceAllL` with pattern `['$', c2]` steps over a leading dollar sign
when the next character is not `c2`. -/
theorem step_nomatch_snd (c2 : Char) (rep : List Char) (X : List Char)
    (h : X.head? ≠ some c2) :
    replaceAllL ['$', c2] rep ('$' :: X) = '$' :: replaceAllL ['$', c2] rep X := by
  rw [replaceAllL_cons _ _ _ _ (by simp)]
  have hnope : (['$', c2] : List Char).isPrefixOf ('$' :: X) = false := by
    cases X with
    | nil => rfl
    | cons x xs =>
      have hx : x ≠ c2 := by
        intro he
        exact h (by rw [he]; rfl)
      have hxp : (c2 == x) = false := beq_eq_false_iff_ne.mpr (fun hh => hx hh.symm)
      simp [List.isPrefixOf, hxp]
  simp [hnope]

/-- `replaceAllL` with pattern `['$', c2]` fires on a subject starting
`'$' :: c2`. -/
theorem step_match (c2 : Char) (rep : List Char) (X : List Char) :
    replaceAllL ['$', c2] rep ('$' :: c2 :: X) = rep ++ replaceAllL ['$', c2] rep X := by
  have h := replaceAllL_match ['$', c2] rep X (by simp)
  simpa using h

/-- Unfolding: `boundedSubst` on a literal (non-dollar) character. -/
theorem boundedSubst_lit (args : List String) (b : Nat) (c : Char) (l : List Char)
    (hc : ¬ c = '$') :
    boundedSubst args b (c :: l) = c :: boundedSubst args b l := by
  conv_lhs => rw [boundedSubst.eq_def]
  simp [hc]

/-- Unfolding: `boundedSubst` on a trailing lone dollar sign. -/
theorem boundedSubst_dollar_nil (args : List String) (b : Nat) :
    boundedSubst args b ['$'] = ['$'] := by
  conv_lhs => rw [boundedSubst.eq_def]
  simp

/-- Unfolding: `boundedSubst` on a dollar sign followed by a non-digit. -/
theorem boundedSubst_nodig (args : List String) (b : Nat) (d : Char) (rest2 : List Char)
    (hd : dig d = none) :
    boundedSubst args b ('$' :: d :: rest2) = '$' :: boundedSubst args b (d :: rest2) := by
  conv_lhs => rw [boundedSubst.eq_def]
  simp [hd]

/-- Unfolding: `boundedSubst` substitutes an in-range, in-bound
placeholder. -/
theorem boundedSubst_dig_in (args : List String) (b : Nat) (d : Char) (rest2 : List Char)
    (n : Nat) (hd : dig d = some n) (hcnd : 1 ≤ n ∧ n ≤ args.length ∧ n ≤ b) :
    boundedSubst args b ('$' :: d :: rest2) =
      (quoteArg (args.getD (n - 1) "")).data ++ boundedSubst args b rest2 := by
  conv_lhs => rw [boundedSubst.eq_def]
  simp [hd, hcnd]

/-- Unfolding: `boundedSubst` leaves an out-of-range or out-of-bound
placeholder alone. -/
theorem boundedSubst_dig_out (args : List String) (b : Nat) (d : Char) (rest2 : List Char)
    (n : Nat) (hd : dig d = some n) (hcnd : ¬(1 ≤ n ∧ n ≤ args.length ∧ n ≤ b)) :
    boundedSubst args b ('$' :: d :: rest2) = '$' :: boundedSubst args b (d :: rest2) := by
  conv_lhs => rw [boundedSubst.eq_def]
  simp only [if_pos rfl]
  rw [hd]
  simp [hcnd]

/-- The first character `boundedSubst` emits for a nonempty input: the
head of the input itself, or the opening quote of a substituted argument. -/
theorem boundedSubst_head (args : List String) (b : Nat) (c : Char) (l : List Char) :
    (boundedSubst args b (c :: l)).head? = some c ∨
    (boundedSubst args b (c :: l)).head? = some sqc := by
  by_cases hc : c = '$'
  · subst hc
    cases l with
    | nil => left; rw [boundedSubst_dollar_nil]; rfl
    | cons d rest2 =>
      cases hd : dig d with
      | none => left; rw [boundedSubst_nodig args b d rest2 hd]; rfl
      | some n =>
        by_cases hcnd : 1 ≤ n ∧ n ≤ args.length ∧ n ≤ b
        · right
          rw [boundedSubst_dig_in args b d rest2 n hd hcnd, quoteArg_data]
          rfl
        · left
          rw [boundedSubst_dig_out args b d rest2 n hd hcnd]
          rfl
  · left
    rw [boundedSubst_lit args b c l hc]
    rfl

/-- One sequential pass of the logger — replacing every occurrence of
`$(i+1)` (digit character `c2`) by the quoted `i`-th argument — advances
the half-substituted query text from bound `i` to bound `i + 1`,
provided no argument value contains a dollar sign. -/
theorem replace_pass (args : List String) (i : Nat) (c2 : Char)
    (hc2 : dig c2 = some (i + 1)) (hi : i + 1 ≤ args.length)
    (hargs : ∀ a ∈ args, '$' ∉ a.data) :
    ∀ l : List Char,
      replaceAllL ['$', c2] (quoteArg (args.getD i "")).data (boundedSubst args i l) =
        boundedSubst args (i + 1) l := by
  intro l
  induction l using boundedSubst.induct args i with
  | case1 => rfl
  | case2 =>
    rw [boundedSubst_dollar_nil, boundedSubst_dollar_nil,
      step_nomatch_snd c2 _ [] (by simp)]
    rfl
  | case3 d rest2 n hd hcnd ih =>
    rw [boundedSubst_dig_in args i d rest2 n hd hcnd,
      boundedSubst_dig_in args (i + 1) d rest2 n hd ⟨hcnd.1, hcnd.2.1, by omega⟩]
    have hmem : args.getD (n - 1) "" ∈ args := by
      have h1 : n - 1 < args.length := by omega
      rw [List.getD_eq_getElem args "" h1]
      exact List.getElem_mem h1
    rw [replaceAllL_skip '$' [c2] _ _ _ (quoteArg_no_dollar _ (hargs _ hmem))]
    exact congrArg _ ih
  | case4 d rest2 n hd hcnd ih =>
    have hdd : ¬ d = '$' := dig_ne_dollar hd
    have ih2 : replaceAllL ['$', c2] (quoteArg (args.getD i "")).data
        (boundedSubst args i rest2) = boundedSubst args (i + 1) rest2 := by
      rw [boundedSubst_lit args i d rest2 hdd, boundedSubst_lit args (i + 1) d rest2 hdd,
        step_nomatch_head c2 _ d _ hdd] at ih
      injection ih
    rw [boundedSubst_dig_out args i d rest2 n hd hcnd,
      boundedSubst_lit args i d rest2 hdd]
    by_cases hn : 1 ≤ n ∧ n ≤ args.length
    · by_cases heq : n = i + 1
      · subst heq
        have hdc : d = c2 := dig_inj hd hc2
        subst hdc
        rw [step_match d _ (boundedSubst args i rest2), ih2,
          boundedSubst_dig_in args (i + 1) d rest2 _ hd ⟨hn.1, hn.2, le_rfl⟩]
        simp
      · have hdc : d ≠ c2 := dig_ne hd hc2 heq
        rw [step_nomatch_snd c2 _ _ (by
          rw [List.head?_cons]
          intro h
          exact hdc (by injection h)),
          step_nomatch_head c2 _ d _ hdd, ih2,
          boundedSubst_dig_out args (i + 1) d rest2 n hd (by omega),
          boundedSubst_lit args (i + 1) d rest2 hdd]
    · have hdc : d ≠ c2 := by
        intro h
        subst h
        rw [hd] at hc2
        injection hc2 with h2
        exact hn ⟨by omega, by omega⟩
      rw [step_nomatch_snd c2 _ _ (by
        rw [List.head?_cons]
        intro h
        exact hdc (by injection h)),
        step_nomatch_head c2 _ d _ hdd, ih2,
        boundedSubst_dig_out args (i + 1) d rest2 n hd (by
          intro hcc
          exact hn ⟨hcc.1, hcc.2.1⟩),
        boundedSubst_lit args (i + 1) d rest2 hdd]
  | case5 d rest2 hd ih =>
    rw [boundedSubst_nodig args i d rest2 hd, boundedSubst_nodig args (i + 1) d rest2 hd]
    have hhead : (boundedSubst args i (d :: rest2)).head? ≠ some c2 := by
      rcases boundedSubst_head args i d rest2 with h | h <;> rw [h]
      · intro hcc
        have hdc : d = c2 := by injection hcc
        subst hdc
        rw [hd] at hc2
        cases hc2
      · intro hcc
        have hqc : sqc = c2 := by injection hcc
        exact (dig_ne_quote hc2) hqc.symm
    rw [step_nomatch_snd c2 _ _ hhead]
    exact congrArg _ ih
  | case6 d rest2 hdd ih =>
    rw [boundedSubst_lit args i d rest2 hdd, boundedSubst_lit args (i + 1) d rest2 hdd,
      step_nomatch_head c2 _ d _ hdd]
    exact congrArg _ ih

/-- At bound 0 nothing is substituted. -/
theorem boundedSubst_zero (args : List String) : ∀ l, boundedSubst args 0 l = l := by
  intro l
  induction l using boundedSubst.induct args 0 with
  | case1 => rfl
  | case2 => exact boundedSubst_dollar_nil args 0
  | case3 d rest2 n hd hcnd ih => omega
  | case4 d rest2 n hd hcnd ih =>
    rw [boundedSubst_dig_out args 0 d rest2 n hd hcnd, ih]
  | case5 d rest2 hd ih =>
    rw [boundedSubst_nodig args 0 d rest2 hd, ih]
  | case6 d rest2 hdd ih =>
    rw [boundedSubst_lit args 0 d rest2 hdd, ih]

/-- At bound `args.length` the bounded substitution is the claimed
simultaneous substitution. -/
theorem specSubstL_eq_bounded (args : List String) :
    ∀ l, specSubstL args l = boundedSubst args args.length l := by
  intro l
  induction l using boundedSubst.induct args args.length with
  | case1 => rfl
  | case2 =>
    rw [boundedSubst_dollar_nil]
    conv_lhs => rw [specSubstL.eq_def]
    simp
  | case3 d rest2 n hd hcnd ih =>
    rw [boundedSubst_dig_in args args.length d rest2 n hd hcnd]
    conv_lhs => rw [specSubstL.eq_def]
    simp only [if_pos rfl]
    rw [hd]
    simp [hcnd.1, hcnd.2.1, ih]
  | case4 d rest2 n hd hcnd ih =>
    rw [boundedSubst_dig_out args args.length d rest2 n hd hcnd]
    conv_lhs => rw [specSubstL.eq_def]
    simp only [if_pos rfl]
    rw [hd]
    have hnot : ¬(1 ≤ n ∧ n ≤ args.length) := by
      intro hcc
      exact hcnd ⟨hcc.1, hcc.2, hcc.2⟩
    simp [hnot, ih]
  | case5 d rest2 hd ih =>
    rw [boundedSubst_nodig args args.length d rest2 hd]
    conv_lhs => rw [specSubstL.eq_def]
    simp only [if_pos rfl]
    rw [hd]
    simp [ih]
  | case6 d rest2 hdd ih =>
    rw [boundedSubst_lit args args.length d rest2 hdd]
    conv_lhs => rw [specSubstL.eq_def]
    simp [hdd, ih]

/-- For a single-digit index the pattern text `$N` is the two characters
dollar and digit, and that digit character reads back as `N`. -/
theorem dollarN_data (n : Nat) (h1 : 1 ≤ n) (h9 : n ≤ 9) :
    (("$" ++ toString n : String)).data = ['$', Char.ofNat (48 + n)] ∧
    dig (Char.ofNat (48 + n)) = some n := by
  interval_cases n <;> exact ⟨rfl, by decide⟩

/-- Running the remaining sequential passes from index `i` on the bound-`i`
bounded substitution lands on the full simultaneous substitution. -/
theorem substArgsFrom_bounded (args : List String) (hlen : args.length ≤ 9)
    (hargs : ∀ a ∈ args, '$' ∉ a.data) (l : List Char) :
    ∀ (k i : Nat), k + i = args.length →
      substArgsFrom i (args.drop i) (String.mk (boundedSubst args i l)) =
        String.mk (boundedSubst args args.length l) := by
  intro k
  induction k with
  | zero =>
    intro i hk
    have hi : i = args.length := by omega
    subst hi
    rw [List.drop_length]
    rfl
  | succ k ih =>
    intro i hk
    have hi : i < args.length := by omega
    rw [List.drop_eq_getElem_cons hi]
    have hgetd : args[i] = args.getD i "" := (List.getD_eq_getElem args "" hi).symm
    have hq : goReplaceAll (String.mk (boundedSubst args i l))
        ("$" ++ toString (i + 1)) (quoteArg args[i]) =
        String.mk (boundedSubst args (i + 1) l) := by
      unfold goReplaceAll
      congr 1
      obtain ⟨hpat, hdig⟩ := dollarN_data (i + 1) (by omega) (by omega)
      rw [hgetd, hpat]
      exact replace_pass args i _ hdig (by omega) hargs l
    show substArgsFrom (i + 1) (args.drop (i + 1))
        (goReplaceAll (String.mk (boundedSubst args i l)) ("$" ++ toString (i + 1))
          (quoteArg args[i])) = _
    rw [hq]
    exact ih (i + 1) (by omega)

/-- C7 (amended): with at most nine arguments, none of whose values
contains a dollar sign, the diagnostic rendering substitutes every `$N`
placeholder (`N = 1 .. len(args)`, read as a single digit) with the `N`-th
argument wrapped in single quotes, in one simultaneous pass over the
original query; and the rendering is display-only — the driver
parameterized path always receives the original query text and argument
list, the substituted text existing only as the optional debug log
entry. -/
theorem sqlQuery_substitutes_and_is_display_only (q : String) (args : List String)
    (hlen : args.length ≤ 9) (hargs : ∀ a ∈ args, '$' ∉ a.data) :
    substArgs q args = String.mk (specSubstL args q.data) ∧
    (∀ dbg, (sctxQuery dbg q args).1 = ⟨q, args⟩ ∧ (sctxExecute dbg q args).1 = ⟨q, args⟩) ∧
    (sctxQuery true q args).2 = some (substArgs q args) ∧
    (sctxQuery false q args).2 = none := by
  refine ⟨?_, fun dbg => ⟨rfl, rfl⟩, rfl, rfl⟩
  show substArgsFrom 0 args q = _
  have h0 : substArgsFrom 0 args q =
      substArgsFrom 0 (args.drop 0) (String.mk (boundedSubst args 0 q.data)) := by
    rw [boundedSubst_zero]
    rfl
  rw [h0, substArgsFrom_bounded args hlen hargs q.data args.length 0 (by omega),
    specSubstL_eq_bounded]

/-- Witness for `sqlQuery_substitutes_and_is_display_only` on a concrete
two-placeholder query. -/
theorem sqlQuery_substitutes_witness :
    ((["x", "y"] : List String).length ≤ 9) ∧
    (∀ a ∈ (["x", "y"] : List String), '$' ∉ a.data) ∧
    substArgs "SELECT $1, $2" ["x", "y"] =
      String.mk (specSubstL ["x", "y"] ("SELECT $1, $2" : String).data) := by
  refine ⟨by decide, by decide, ?_⟩
  exact (sqlQuery_substitutes_and_is_display_only "SELECT $1, $2" ["x", "y"]
    (by decide) (by decide)).1

/-- C7 counterexample: with ten arguments the `$10` placeholder is not
substituted with its own (tenth) argument — the `$1` pass consumes its
prefix first, leaving the quoted first argument followed by a stray `0`;
the quoted tenth argument appears nowhere in the rendering. -/
theorem sqlQuery_subst_prefix_counterexample :
    substArgs "$10" ["a1", "a2", "a3", "a4", "a5", "a6", "a7", "a8", "a9", "a10"] =
      quoteArg "a1" ++ "0" ∧
    goContains (substArgs "$10" ["a1", "a2", "a3", "a4", "a5", "a6", "a7", "a8", "a9", "a10"])
      (quoteArg "a10") = false := by
  refine ⟨by decide, by decide⟩
